import Mathlib

/-!
Verification of the browser live-reload client of `web-dev-server`
(`src/js/script.js`), over a shallow embedding in Lean.

JS strings are modelled as Lean `String` (operated on through `String.data :
List Char`).  `window.location` and the WHATWG `URL` platform built-ins used by
the script are modelled for path-only inputs (no scheme/authority in the input
string beyond a leading `//` network-path prefix), without percent-encoding,
backslash-as-slash folding, or tab/newline stripping; the page origin is a
fixed abstract constant, as none of the verified properties depend on it.
-/

namespace WebDevServer

/-- Split a character list on `'/'` boundaries (like `String.prototype.split("/")`). -/
def splitOnSlash : List Char → List (List Char)
  | [] => [[]]
  | c :: cs =>
    if c = '/' then [] :: splitOnSlash cs
    else
      match splitOnSlash cs with
      | [] => [[c]]
      | seg :: rest => (c :: seg) :: rest

/-- Join path segments with `'/'` separators. -/
def joinSlash : List (List Char) → List Char
  | [] => []
  | [seg] => seg
  | seg :: rest => seg ++ '/' :: joinSlash rest

/-- One step of WHATWG URL path-segment processing: `"."` is dropped,
`".."` removes the previous segment, anything else is appended. -/
def stepSeg (out : List (List Char)) (seg : List Char) : List (List Char) :=
  if seg = ['.'] then out
  else if seg = ['.', '.'] then out.dropLast
  else out ++ [seg]

/-- WHATWG dot-segment removal over a segment list; a trailing `"."` or
`".."` leaves a trailing empty segment (i.e. a trailing slash). -/
def removeDots (segs : List (List Char)) : List (List Char) :=
  let out := segs.foldl stepSeg []
  match segs.getLast? with
  | some s => if s = ['.'] ∨ s = ['.', '.'] then out ++ [[]] else out
  | none => out

/-- Serialize an absolute path (input is expected to start with `'/'`):
drop the leading empty segment, remove dot segments, rejoin. -/
def resolvePath (cs : List Char) : List Char :=
  '/' :: joinSlash (removeDots ((splitOnSlash cs).drop 1))

/-- Everything before the first `'?'` or `'#'` (URL path component of a
path-relative reference). -/
def stripQueryFragment (cs : List Char) : List Char :=
  cs.takeWhile (fun c => c != '?' && c != '#')

/-- Model of `new URL(path, window.location.origin).pathname` for path-only
inputs: strip query/fragment; a `"//"` prefix is a network-path reference whose
authority is skipped; an absolute path is resolved as-is; a relative path is
resolved against the origin's root path `/`. -/
def urlPathnameChars (cs : List Char) : List Char :=
  let p := stripQueryFragment cs
  match p with
  | '/' :: '/' :: rest =>
    let path := rest.dropWhile (fun c => c != '/')
    resolvePath (if path = [] then ['/'] else path)
  | '/' :: _ => resolvePath p
  | _ => resolvePath ('/' :: p)

/-- String-level wrapper for `urlPathnameChars`. -/
def urlPathname (s : String) : String :=
  String.mk (urlPathnameChars s.data)

/-- `pathname.replace(/\/+$/, "")`: drop every trailing `'/'`. -/
def dropTrailingSlashes (cs : List Char) : List Char :=
  (cs.reverse.dropWhile (fun c => c = '/')).reverse

/-- The `index.html`/`index.htm` suffix strip of `normalizeHtmlPath`: the
`endsWith` guards are case-sensitive, and when one holds the case-insensitive
regex `/index\.html?$/i` removes exactly that suffix. -/
def stripIndexStage (p : List Char) : List Char :=
  if "index.html".data.isSuffixOf p then p.take (p.length - 10)
  else if "index.htm".data.isSuffixOf p then p.take (p.length - 9)
  else p

/-- The trailing-slash strip of `normalizeHtmlPath`:
`if (pathname.length > 1 && pathname.endsWith("/")) pathname = pathname.replace(/\/+$/, "")`. -/
def stripSlashStage (p : List Char) : List Char :=
  if 1 < p.length ∧ p.getLast? = some '/' then dropTrailingSlashes p else p

/-- The leading-slash fixup of `normalizeHtmlPath`:
`if (!pathname.startsWith("/")) pathname = "/" + pathname`. -/
def leadingSlashStage (p : List Char) : List Char :=
  if p.head? = some '/' then p else '/' :: p

/-- The final fixup of `normalizeHtmlPath`: `if (pathname === "") pathname = "/"`. -/
def emptyStage (p : List Char) : List Char :=
  if p = [] then ['/'] else p

/-- `normalizeHtmlPath` from `script.js`, at the character-list level:
resolve against the origin, strip one trailing `index.html`/`index.htm`
segment, strip trailing slashes unless the path is the root, ensure a
leading slash, map the empty result to `/`. -/
def normalizeHtmlPathChars (cs : List Char) : List Char :=
  emptyStage (leadingSlashStage (stripSlashStage (stripIndexStage (urlPathnameChars cs))))

/-- `normalizeHtmlPath` from `script.js` (String-level). -/
def normalizeHtmlPath (path : String) : String :=
  String.mk (normalizeHtmlPathChars path.data)

/-- `pathsMatch` from `script.js`. -/
def pathsMatch (messagePath currentPath : String) : Bool :=
  normalizeHtmlPath messagePath == normalizeHtmlPath currentPath

/-! ### Connection manager: retry-delay state machine (`connect` in `script.js`)

`retryDelay` starts at 500.  The `open` handler sets it back to 500.  The
`close` handler first executes `retryDelay = Math.min(retryDelay * 2, 8000)`
and only then `setTimeout(connect, retryDelay)`, so the scheduled delay is the
already-doubled value. -/

/-- A socket lifecycle event relevant to `retryDelay` (`error` only calls
`socket.close()`, which surfaces as a `closed` event). -/
inductive SocketEvent
  | opened
  | closed
deriving DecidableEq, Repr

/-- `let retryDelay = 500;` -/
def initialRetryDelay : Nat := 500

/-- Run a sequence of socket lifecycle events from a given `retryDelay`;
returns the final `retryDelay` and the list of reconnect delays passed to
`setTimeout`, in order.  Mirrors the `open` and `close` handlers of `connect`. -/
def runEvents : Nat → List SocketEvent → Nat × List Nat
  | d, [] => (d, [])
  | _, SocketEvent.opened :: es => runEvents 500 es
  | d, SocketEvent.closed :: es =>
    let d' := min (d * 2) 8000
    let r := runEvents d' es
    (r.1, d' :: r.2)

/-! ### URL record model (`new URL(path, origin)`, `searchParams.set`, `toString`)

The page origin is abstracted as fixed scheme/host constants; query strings
are parsed as `URLSearchParams` does on `&` and first `=` (without
percent-decoding), and serialized back in order. -/

/-- The page's scheme, modelling `window.location` (its value is irrelevant
to every verified property). -/
def pageScheme : String := "http"

/-- The page's host, modelling `window.location` (its value is irrelevant
to every verified property). -/
def pageHost : String := "localhost:3000"

/-- Split a character list on `'&'` boundaries. -/
def splitOnAmp : List Char → List (List Char)
  | [] => [[]]
  | c :: cs =>
    if c = '&' then [] :: splitOnAmp cs
    else
      match splitOnAmp cs with
      | [] => [[c]]
      | seg :: rest => (c :: seg) :: rest

/-- The query component of a path string: after the first `'?'` that occurs
before any `'#'`, up to the `'#'`. -/
def queryPart (cs : List Char) : List Char :=
  ((cs.takeWhile (fun c => c != '#')).dropWhile (fun c => c != '?')).drop 1

/-- `URLSearchParams` parsing of a query string: split on `'&'`, drop empty
pieces, split each piece at its first `'='` into a key/value pair. -/
def parseParams (q : List Char) : List (String × String) :=
  (splitOnAmp q).filterMap (fun seg =>
    if seg = [] then none
    else some (String.mk (seg.takeWhile (fun c => c != '=')),
               String.mk ((seg.dropWhile (fun c => c != '=')).drop 1)))

/-- A parsed URL as the script uses it: scheme, host, pathname, and the
ordered search-parameter list. -/
structure UrlRec where
  scheme : String
  host : String
  pathname : String
  params : List (String × String)
deriving DecidableEq, Repr

/-- Model of `new URL(path, window.location.origin)` for path-only inputs. -/
def resolveUrl (path : String) : UrlRec :=
  { scheme := pageScheme
    host := pageHost
    pathname := urlPathname path
    params := parseParams (queryPart path.data) }

/-- `URLSearchParams.set(k, v)`: if a pair with key `k` exists, update the
first in place and remove the others; otherwise append `(k, v)` at the end. -/
def setParamList : List (String × String) → String → String → List (String × String)
  | [], k, v => [(k, v)]
  | kv :: rest, k, v =>
    if kv.1 = k then (k, v) :: rest.filter (fun kv2 => kv2.1 != k)
    else kv :: setParamList rest k v

/-- `url.searchParams.set(k, v)` on the record model. -/
def setSearchParam (u : UrlRec) (k v : String) : UrlRec :=
  { u with params := setParamList u.params k v }

/-- First value bound to key `k` in a parameter list (`searchParams.get`). -/
def lookupParam : List (String × String) → String → Option String
  | [], _ => none
  | kv :: rest, k => if kv.1 = k then some kv.2 else lookupParam rest k

/-- `url.toString()` on the record model. -/
def serializeUrl (u : UrlRec) : String :=
  u.scheme ++ "://" ++ u.host ++ u.pathname ++
    (if u.params = [] then ""
     else "?" ++ String.intercalate "&" (u.params.map (fun kv => kv.1 ++ "=" ++ kv.2)))

/-- The URL record built by `cacheBustUrl(path)` in `script.js`, with the
`Date.now().toString()` timestamp abstracted as the parameter `now`. -/
def cacheBustUrlRec (now path : String) : UrlRec :=
  setSearchParam (resolveUrl path) "_v" now

/-- `cacheBustUrl(path)` from `script.js` (the returned string). -/
def cacheBustUrl (now path : String) : String :=
  serializeUrl (cacheBustUrlRec now path)

/-! ### Message dispatcher and CSS diff applier -/

/-- Truthiness of a JS string-or-undefined value (`!path`): `undefined` and
the empty string are falsy. -/
def jsFalsy : Option String → Bool
  | none => true
  | some s => s == ""

/-- JS `ToString` coercion applied when a string-or-undefined value is passed
to `new URL`: `undefined` stringifies to `"undefined"`. -/
def jsToString : Option String → String
  | none => "undefined"
  | some s => s

/-- A parsed notification, as the fields `handleMessage` reads.  `none`
models an absent (or non-string) field. -/
structure WsMessage where
  type : Option String
  resource : Option String
  path : Option String
deriving DecidableEq, Repr

/-- The immediate effect of handling one parsed message: nothing, a full
reload of the current path, the start of an HTML diff fetch, or an in-place
update of the stylesheet hrefs. -/
inductive Outcome
  | ignored
  | reload
  | fetchHtml (path : String)
  | cssUpdated (links : List String)
deriving DecidableEq, Repr

/-- `applyCssDiff(path)` from `script.js`, over the list of
`link[rel="stylesheet"]` hrefs of the live document: returns the rewritten
href list and whether a full reload is triggered (`!path`, or no link whose
resolved pathname equals the normalized target). -/
def applyCssDiff (links : List String) (now : String) (path : Option String) :
    List String × Bool :=
  if jsFalsy path then (links, true)
  else
    let normalizedPath := urlPathname (jsToString path)
    (links.map (fun href =>
        if urlPathname href = normalizedPath then cacheBustUrl now href else href),
     !links.any (fun href => urlPathname href == normalizedPath))

/-- The synchronous prefix of `applyHtmlDiff(path)`: reload on a falsy path,
otherwise proceed to the cache-busted fetch. -/
def applyHtmlDiffEntry (path : Option String) : Outcome :=
  if jsFalsy path then Outcome.reload
  else Outcome.fetchHtml (jsToString path)

/-- `handleMessage(message)` from `script.js`, with the live document's
stylesheet hrefs and the current timestamp passed explicitly. -/
def handleMessage (diffMode : Bool) (currentPath : String) (links : List String)
    (now : String) (message : WsMessage) : Outcome :=
  match message.type with
  | none => Outcome.ignored
  | some t =>
    if t = "reload" then Outcome.reload
    else if t = "diff" then
      if !diffMode then Outcome.reload
      else if message.resource = some "html" then
        if !pathsMatch (jsToString message.path) currentPath then Outcome.ignored
        else applyHtmlDiffEntry message.path
      else if message.resource = some "css" then
        let r := applyCssDiff links now message.path
        if r.2 then Outcome.reload else Outcome.cssUpdated r.1
      else Outcome.reload
    else Outcome.ignored

/-! ### DOM merge engine (`mergeHead`, `replaceBody`, `reactivateScripts`)

A DOM element is modelled by its `id` attribute (the empty string models a
missing id, matching JS truthiness of `node.id`), an abstract `payload`
standing for all its other content (tag, attributes, text), and a `key`
giving node identity: `document.importNode` and `document.createElement`
produce nodes with fresh keys, supplied by an explicit key function.  A
parent's children are a list; `replaceWith` is an in-place `List.set`,
`appendChild` is an append. -/

/-- A DOM element: id attribute (`""` = absent), abstract content, node
identity. -/
structure Elem where
  id : String
  payload : Nat
  key : Nat
deriving DecidableEq, Repr

/-- `getPreservedIds()` from `script.js`. -/
def getPreservedIds : List String :=
  ["__web_dev_server_config", "__web_dev_server_client"]

/-- `document.importNode(node, true)`: a deep copy with the same content and
a fresh node key. -/
def importNode (k : Nat) (e : Elem) : Elem :=
  { id := e.id, payload := e.payload, key := k }

/-- Association-list lookup (`Map.get` / `Map.has`). -/
def lookupAssoc : List (String × Nat) → String → Option Nat
  | [], _ => none
  | kv :: rest, k => if kv.1 = k then some kv.2 else lookupAssoc rest k

/-- Association-list deletion (`Map.delete`; keys are unique, so dropping the
first match suffices). -/
def eraseAssoc : List (String × Nat) → String → List (String × Nat)
  | [], _ => []
  | kv :: rest, k => if kv.1 = k then rest else kv :: eraseAssoc rest k

/-- The `existingById` index of `mergeHead`: maps each truthy id among the
head's children to the position of its last occurrence (later `Map.set`
calls overwrite earlier ones).  `i` is the position of the first listed
element. -/
def buildIndexFrom (i : Nat) : List Elem → List (String × Nat)
  | [] => []
  | e :: rest =>
    let r := buildIndexFrom (i + 1) rest
    if e.id ≠ "" ∧ lookupAssoc r e.id = none then (e.id, i) :: r else r

/-- The `forEach` body of `mergeHead` over the fetched head's children:
state is the live head's children plus the remaining `existingById` index;
`imp j` is the key of the node imported for the `j`-th fetched child. -/
def mergeChildren (imp : Nat → Nat) :
    Nat → List Elem × List (String × Nat) → List Elem → List Elem × List (String × Nat)
  | _, st, [] => st
  | j, st, node :: rest =>
    if node.id ≠ "" ∧ node.id ∈ getPreservedIds then
      mergeChildren imp (j + 1) st rest
    else
      let imported := importNode (imp j) node
      match (if node.id ≠ "" then lookupAssoc st.2 node.id else none) with
      | some pos =>
        mergeChildren imp (j + 1) (st.1.set pos imported, eraseAssoc st.2 node.id) rest
      | none =>
        mergeChildren imp (j + 1) (st.1 ++ [imported], st.2) rest

/-- `mergeHead(newHead)` from `script.js`: `none` models a falsy `newHead`
(early return with no mutation); otherwise merge the fetched children into
the live head's children. -/
def mergeHead (imp : Nat → Nat) (currentHead : List Elem) :
    Option (List Elem) → List Elem
  | none => currentHead
  | some newHead =>
    (mergeChildren imp 0 (currentHead, buildIndexFrom 0 currentHead) newHead).1

/-- `document.createElement("script")` plus the attribute/text copying of
`reactivateScripts`: same content, fresh node key. -/
def createScript (k : Nat) (e : Elem) : Elem :=
  { id := e.id, payload := e.payload, key := k }

/-- The `forEach` body of `reactivateScripts` over the scripts found under
the root, with `i` the position of the first listed script and `fresh i` the
key of the element created for position `i`. -/
def reactivateFrom (fresh : Nat → Nat) : Nat → List Elem → List Elem
  | _, [] => []
  | i, e :: rest =>
    (if e.id ≠ "" ∧ e.id ∈ getPreservedIds then e else createScript (fresh i) e)
      :: reactivateFrom fresh (i + 1) rest

/-- `reactivateScripts(root)` from `script.js`, over the list of `script`
descendants of the root. -/
def reactivateScripts (fresh : Nat → Nat) (scripts : List Elem) : List Elem :=
  reactivateFrom fresh 0 scripts

/-- `replaceBody(newBody)` from `script.js`: `none` models a falsy fetched
body (full reload, live body untouched); otherwise the live body's children
are replaced by imported copies of the fetched children.  Returns the new
children and whether a reload was triggered. -/
def replaceBody (imp : Nat → Nat) (liveBody : List Elem) :
    Option (List Elem) → List Elem × Bool
  | none => (liveBody, true)
  | some newBody => (newBody.mapIdx (fun i e => importNode (imp i) e), false)

/-! ### Helper lemmas -/

theorem dropWhile_slash_head (l : List Char) :
    (l.dropWhile (fun c => c = '/')).head? ≠ some '/' := by
  induction l with
  | nil => simp
  | cons c cs ih =>
    by_cases h : c = '/'
    · simpa [List.dropWhile_cons, h] using ih
    · simp [List.dropWhile_cons, h]

theorem dropTrailingSlashes_getLast (cs : List Char) :
    (dropTrailingSlashes cs).getLast? ≠ some '/' := by
  unfold dropTrailingSlashes
  rw [List.getLast?_reverse]
  exact dropWhile_slash_head _

theorem finish_shape (q : List Char) (hq : q.getLast? ≠ some '/') :
    (emptyStage (leadingSlashStage q)).head? = some '/' ∧
      (emptyStage (leadingSlashStage q) = ['/'] ∨
        (emptyStage (leadingSlashStage q)).getLast? ≠ some '/') := by
  unfold leadingSlashStage emptyStage
  by_cases h : q.head? = some '/'
  · have hne : q ≠ [] := by
      intro e
      subst e
      simp at h
    simp only [if_pos h, if_neg hne]
    exact ⟨h, Or.inr hq⟩
  · simp only [if_neg h]
    cases q with
    | nil => exact ⟨by simp, Or.inl (by simp)⟩
    | cons a t =>
      refine ⟨by simp, Or.inr ?_⟩
      have hcons : ('/' :: a :: t ≠ ([] : List Char)) := by simp
      simp only [if_neg hcons]
      rw [List.getLast?_cons_cons]
      exact hq

theorem stages_shape (p1 : List Char) :
    (emptyStage (leadingSlashStage (stripSlashStage p1))).head? = some '/' ∧
      (emptyStage (leadingSlashStage (stripSlashStage p1)) = ['/'] ∨
        (emptyStage (leadingSlashStage (stripSlashStage p1))).getLast? ≠ some '/') := by
  unfold stripSlashStage
  by_cases h : 1 < p1.length ∧ p1.getLast? = some '/'
  · simp only [if_pos h]
    exact finish_shape _ (dropTrailingSlashes_getLast p1)
  · simp only [if_neg h]
    by_cases h2 : p1.getLast? = some '/'
    · have hlen : ¬ 1 < p1.length := fun hl => h ⟨hl, h2⟩
      match p1, h2, hlen with
      | [c], h2, _ =>
        have hc : c = '/' := by simpa using h2
        subst hc
        exact ⟨rfl, Or.inl rfl⟩
      | c :: d :: t, _, hlen => exact absurd (by simp [List.length_cons]) hlen
    · exact finish_shape _ h2

theorem normalizeHtmlPathChars_shape (cs : List Char) :
    (normalizeHtmlPathChars cs).head? = some '/' ∧
      (normalizeHtmlPathChars cs = ['/'] ∨
        (normalizeHtmlPathChars cs).getLast? ≠ some '/') :=
  stages_shape _

theorem lookupAssoc_mem (m : List (String × Nat)) (k : String) (v : Nat)
    (h : lookupAssoc m k = some v) : (k, v) ∈ m := by
  induction m with
  | nil => simp [lookupAssoc] at h
  | cons kv rest ih =>
    rw [lookupAssoc] at h
    by_cases hk : kv.1 = k
    · rw [if_pos hk] at h
      have hv : kv.2 = v := Option.some.inj h
      subst hk
      subst hv
      exact List.mem_cons_self _ _
    · rw [if_neg hk] at h
      exact List.mem_cons_of_mem _ (ih h)

theorem eraseAssoc_subset (m : List (String × Nat)) (k : String) :
    ∀ pr ∈ eraseAssoc m k, pr ∈ m := by
  induction m with
  | nil => intro pr h; simp [eraseAssoc] at h
  | cons kv rest ih =>
    intro pr h
    rw [eraseAssoc] at h
    by_cases hk : kv.1 = k
    · rw [if_pos hk] at h
      exact List.mem_cons_of_mem _ h
    · rw [if_neg hk] at h
      rcases List.mem_cons.mp h with he | ht
      · exact he ▸ List.mem_cons_self _ _
      · exact List.mem_cons_of_mem _ (ih pr ht)

theorem buildIndexFrom_spec (l : List Elem) :
    ∀ i pr, pr ∈ buildIndexFrom i l →
      i ≤ pr.2 ∧ (l[pr.2 - i]?).map Elem.id = some pr.1 := by
  induction l with
  | nil => intro i pr h; simp [buildIndexFrom] at h
  | cons e rest ih =>
    intro i pr h
    simp only [buildIndexFrom] at h
    have hmem : pr = (e.id, i) ∨ pr ∈ buildIndexFrom (i + 1) rest := by
      by_cases hc : e.id ≠ "" ∧ lookupAssoc (buildIndexFrom (i + 1) rest) e.id = none
      · rw [if_pos hc] at h
        exact List.mem_cons.mp h
      · rw [if_neg hc] at h
        exact Or.inr h
    rcases hmem with he | ht
    · subst he
      refine ⟨Nat.le_refl i, ?_⟩
      simp
    · have hrest := ih (i + 1) pr ht
      refine ⟨Nat.le_trans (Nat.le_succ i) hrest.1, ?_⟩
      have h2 : pr.2 - i = (pr.2 - (i + 1)) + 1 := by omega
      rw [h2, List.getElem?_cons_succ]
      exact hrest.2

theorem mergeChildren_preserves (imp : Nat → Nat) (nodes : List Elem) :
    ∀ (j : Nat) (st : List Elem × List (String × Nat)),
      (∀ pr ∈ st.2, ((st.1[pr.2]?).map Elem.id = some pr.1)) →
      ∀ (i : Nat) (e : Elem), st.1[i]? = some e → e.id ∈ getPreservedIds →
        ((mergeChildren imp j st nodes).1)[i]? = some e := by
  induction nodes with
  | nil => intro j st hinv i e hi hpres; simpa [mergeChildren] using hi
  | cons node rest ih =>
    intro j st hinv i e hi hpres
    simp only [mergeChildren]
    by_cases hskip : node.id ≠ "" ∧ node.id ∈ getPreservedIds
    · rw [if_pos hskip]
      exact ih (j + 1) st hinv i e hi hpres
    · rw [if_neg hskip]
      cases hcase : (if node.id ≠ "" then lookupAssoc st.2 node.id else none) with
      | none =>
        have hlt : i < st.1.length := (List.getElem?_eq_some_iff.mp hi).1
        refine ih (j + 1) (st.1 ++ [importNode (imp j) node], st.2) ?_ i e ?_ hpres
        · intro pr hpr
          have horig := hinv pr hpr
          have hprlt : pr.2 < st.1.length := by
            rcases Option.map_eq_some'.mp horig with ⟨el, hel, _⟩
            exact (List.getElem?_eq_some_iff.mp hel).1
          show ((st.1 ++ [importNode (imp j) node])[pr.2]?).map Elem.id = some pr.1
          rw [List.getElem?_append_left hprlt]
          exact horig
        · show (st.1 ++ [importNode (imp j) node])[i]? = some e
          rw [List.getElem?_append_left hlt]
          exact hi
      | some pos =>
        have hid : node.id ≠ "" := by
          intro he
          rw [if_neg (by simp [he])] at hcase
          cases hcase
        have hlook : lookupAssoc st.2 node.id = some pos := by
          rw [if_pos hid] at hcase
          exact hcase
        have hmem := lookupAssoc_mem _ _ _ hlook
        have hinvpos := hinv _ hmem
        have hne : pos ≠ i := by
          intro he
          subst he
          rw [hi] at hinvpos
          simp only [Option.map_some'] at hinvpos
          have heid : e.id = node.id := Option.some.inj hinvpos
          exact hskip ⟨hid, heid ▸ hpres⟩
        refine ih (j + 1) (st.1.set pos (importNode (imp j) node), eraseAssoc st.2 node.id)
          ?_ i e ?_ hpres
        · intro pr hpr
          have hpr' := eraseAssoc_subset _ _ pr hpr
          have horig := hinv pr hpr'
          show ((st.1.set pos (importNode (imp j) node))[pr.2]?).map Elem.id = some pr.1
          by_cases hp : pr.2 = pos
          · have hprlt : pr.2 < st.1.length := by
              rcases Option.map_eq_some'.mp horig with ⟨el, hel, _⟩
              exact (List.getElem?_eq_some_iff.mp hel).1
            have hpr1 : pr.1 = node.id := by
              rw [hp] at horig
              rw [horig] at hinvpos
              exact Option.some.inj hinvpos
            subst hp
            rw [List.getElem?_set_self hprlt]
            simp only [Option.map_some', importNode]
            rw [hpr1]
          · rw [List.getElem?_set_ne (fun hh => hp hh.symm)]
            exact horig
        · show (st.1.set pos (importNode (imp j) node))[i]? = some e
          rw [List.getElem?_set_ne hne]
          exact hi

theorem reactivateFrom_preserves (fresh : Nat → Nat) (scripts : List Elem) :
    ∀ (j i : Nat) (e : Elem), scripts[i]? = some e → e.id ∈ getPreservedIds →
      (reactivateFrom fresh j scripts)[i]? = some e := by
  induction scripts with
  | nil => intro j i e hi _; simp at hi
  | cons s rest ih =>
    intro j i e hi hpres
    cases i with
    | zero =>
      have hs : s = e := by
        rw [List.getElem?_cons_zero] at hi
        exact Option.some.inj hi
      subst hs
      have hsid : s.id ≠ "" := by
        intro he
        rw [he] at hpres
        simp [getPreservedIds] at hpres
      simp only [reactivateFrom]
      rw [if_pos ⟨hsid, hpres⟩]
      exact List.getElem?_cons_zero
    | succ i =>
      simp only [reactivateFrom]
      rw [List.getElem?_cons_succ]
      rw [List.getElem?_cons_succ] at hi
      exact ih (j + 1) i e hi hpres

theorem min_cap_mul (a c : Nat) (hc : 1 ≤ c) :
    min (min a 8000 * c) 8000 = min (a * c) 8000 := by
  rcases Nat.le_total a 8000 with h | h
  · rw [Nat.min_eq_left h]
  · have h1 : 8000 ≤ 8000 * c := Nat.le_mul_of_pos_right 8000 hc
    have h2 : 8000 * c ≤ a * c := Nat.mul_le_mul_right c h
    rw [Nat.min_eq_right h, Nat.min_eq_right h1, Nat.min_eq_right (h1.trans h2)]

theorem runEvents_closes (n : Nat) :
    ∀ d, (runEvents d (List.replicate n SocketEvent.closed)).2
      = (List.range n).map (fun k => min (d * 2 ^ (k + 1)) 8000) := by
  induction n with
  | zero => intro d; simp [runEvents]
  | succ n ih =>
    intro d
    rw [List.replicate_succ]
    simp only [runEvents, ih]
    rw [List.range_succ_eq_map]
    simp only [List.map_cons, List.map_map]
    refine congrArg₂ List.cons (by norm_num) ?_
    apply List.map_congr_left
    intro k _
    simp only [Function.comp_apply]
    rw [min_cap_mul (d * 2) (2 ^ (k + 1)) Nat.one_le_two_pow]
    congr 1
    rw [Nat.succ_eq_add_one]
    ring

theorem setParamList_filter (ps : List (String × String)) (k v : String) :
    (setParamList ps k v).filter (fun kv => kv.1 != k)
      = ps.filter (fun kv => kv.1 != k) := by
  induction ps with
  | nil => simp [setParamList]
  | cons kv rest ih =>
    rw [setParamList]
    by_cases hk : kv.1 = k
    · rw [if_pos hk]
      simp [List.filter_cons, hk, List.filter_filter]
    · rw [if_neg hk]
      simp [List.filter_cons, hk, ih]

theorem lookupParam_set (ps : List (String × String)) (k v : String) :
    lookupParam (setParamList ps k v) k = some v := by
  induction ps with
  | nil => simp [setParamList, lookupParam]
  | cons kv rest ih =>
    rw [setParamList]
    by_cases hk : kv.1 = k
    · rw [if_pos hk]
      simp [lookupParam]
    · rw [if_neg hk]
      rw [lookupParam, if_neg hk]
      exact ih

/-! ### Claim theorems -/

/-- C1, counterexample: the claimed delay sequence 500, 1000, 2000, … is
wrong.  After the very first close (one consecutive failure), the scheduled
reconnect delay is 1000 ms, not 500 ms, because the close handler doubles
`retryDelay` before calling `setTimeout`. -/
theorem retryDelay_first_close_not_500 :
    (runEvents initialRetryDelay [SocketEvent.closed]).2 ≠ [500] := by
  decide

/-- C1 (amended): each close first doubles `RetryDelay` capped at 8000 and
only then schedules the reconnect after the updated `RetryDelay`; hence for
`n` consecutive failed attempts the scheduled delays are exactly
1000, 2000, 4000, 8000, 8000, … (the k-th delay is `min (500·2^(k+1)) 8000`). -/
theorem retryDelays_of_consecutive_closes (n : Nat) :
    (runEvents initialRetryDelay (List.replicate n SocketEvent.closed)).2
        = (List.range n).map (fun k => min (500 * 2 ^ (k + 1)) 8000) ∧
      ∀ d, runEvents d [SocketEvent.closed] = (min (d * 2) 8000, [min (d * 2) 8000]) :=
  ⟨runEvents_closes n initialRetryDelay, fun _ => rfl⟩

/-- C2, counterexample: path normalization is not idempotent.  Stripping one
trailing `index.html` segment can expose another: `/xindex.htmlindex.html`
normalizes to `/xindex.html`, and normalizing that again yields `/x`. -/
theorem normalizeHtmlPath_not_idempotent :
    normalizeHtmlPath (normalizeHtmlPath "/xindex.htmlindex.html")
      ≠ normalizeHtmlPath "/xindex.htmlindex.html" := by
  decide

/-- C2 (amended): normalization is idempotent for every path `p` whose
normalized form is a fixed point of URL path resolution and does not itself
end in `index.html` or `index.htm`; in particular such an already-normalized
path is returned unchanged. -/
theorem normalizeHtmlPath_idempotent_on_normal (p : String)
    (h1 : urlPathname (normalizeHtmlPath p) = normalizeHtmlPath p)
    (h2 : "index.html".data.isSuffixOf (normalizeHtmlPath p).data = false)
    (h3 : "index.htm".data.isSuffixOf (normalizeHtmlPath p).data = false) :
    normalizeHtmlPath (normalizeHtmlPath p) = normalizeHtmlPath p := by
  have hchars : urlPathnameChars (normalizeHtmlPath p).data = (normalizeHtmlPath p).data :=
    congrArg String.data h1
  have hshape := normalizeHtmlPathChars_shape p.data
  have hdata : (normalizeHtmlPath p).data = normalizeHtmlPathChars p.data := rfl
  rw [← hdata] at hshape
  have hstrip : stripIndexStage (normalizeHtmlPath p).data = (normalizeHtmlPath p).data := by
    unfold stripIndexStage
    simp only [h2, h3, Bool.false_eq_true, if_false]
  have hslash : stripSlashStage (normalizeHtmlPath p).data = (normalizeHtmlPath p).data := by
    unfold stripSlashStage
    rcases hshape.2 with he | hl
    · rw [he]
      simp
    · exact if_neg (fun hc => hl hc.2)
  have hlead : leadingSlashStage (normalizeHtmlPath p).data = (normalizeHtmlPath p).data := by
    unfold leadingSlashStage
    exact if_pos hshape.1
  have hempty : emptyStage (normalizeHtmlPath p).data = (normalizeHtmlPath p).data := by
    unfold emptyStage
    refine if_neg (fun he => ?_)
    have h := hshape.1
    rw [he] at h
    cases h
  show String.mk (normalizeHtmlPathChars (normalizeHtmlPath p).data) = normalizeHtmlPath p
  unfold normalizeHtmlPathChars
  rw [hchars, hstrip, hslash, hlead, hempty]

/-- C2, witness: the amended idempotence theorem applied at `/foo`. -/
theorem normalizeHtmlPath_idempotent_on_normal_witness :
    (urlPathname (normalizeHtmlPath "/foo") = normalizeHtmlPath "/foo") ∧
      normalizeHtmlPath (normalizeHtmlPath "/foo") = normalizeHtmlPath "/foo" :=
  ⟨by decide,
    normalizeHtmlPath_idempotent_on_normal "/foo" (by decide) (by decide) (by decide)⟩

/-- C3, counterexample: an html diff with a missing path does NOT trigger a
full reload.  The dispatcher first compares `normalizeHtmlPath(undefined)`
(= `/undefined`) with the current path; on the usual mismatch it skips the
message with no action at all. -/
theorem handleMessage_missing_html_path_skips :
    handleMessage true "/" [] "1" ⟨some "diff", some "html", none⟩ ≠ Outcome.reload := by
  decide

/-- C3 (amended): with patch mode enabled, a `diff` message whose resource is
neither `html` nor `css` triggers a full reload, and so does a `css` diff
with a missing path; but an `html` diff with a missing path is compared as
the path string `undefined`: it is silently skipped when that does not match
the current path, and reloads only when it matches. -/
theorem handleMessage_diff_fallbacks (currentPath : String) (links : List String)
    (now : String) (resource path : Option String) :
    (resource ≠ some "html" → resource ≠ some "css" →
        handleMessage true currentPath links now ⟨some "diff", resource, path⟩
          = Outcome.reload) ∧
      (handleMessage true currentPath links now ⟨some "diff", some "css", none⟩
          = Outcome.reload) ∧
      (pathsMatch "undefined" currentPath = false →
        handleMessage true currentPath links now ⟨some "diff", some "html", none⟩
          = Outcome.ignored) ∧
      (pathsMatch "undefined" currentPath = true →
        handleMessage true currentPath links now ⟨some "diff", some "html", none⟩
          = Outcome.reload) := by
  refine ⟨fun h1 h2 => ?_, ?_, fun hm => ?_, fun hm => ?_⟩
  · simp [handleMessage, h1, h2]
  · simp [handleMessage, applyCssDiff, jsFalsy]
  · simp [handleMessage, jsToString, hm]
  · simp [handleMessage, jsToString, hm, applyHtmlDiffEntry, jsFalsy]

/-- C3, witness: the fallback theorem applied at concrete inputs covering
all four cases. -/
theorem handleMessage_diff_fallbacks_witness :
    handleMessage true "/" [] "1" ⟨some "diff", some "video", some "/x"⟩ = Outcome.reload ∧
      handleMessage true "/" [] "1" ⟨some "diff", some "css", none⟩ = Outcome.reload ∧
      handleMessage true "/" [] "1" ⟨some "diff", some "html", none⟩ = Outcome.ignored ∧
      handleMessage true "/undefined" [] "1" ⟨some "diff", some "html", none⟩
        = Outcome.reload :=
  ⟨(handleMessage_diff_fallbacks "/" [] "1" (some "video") (some "/x")).1
      (by decide) (by decide),
    (handleMessage_diff_fallbacks "/" [] "1" (some "video") (some "/x")).2.1,
    (handleMessage_diff_fallbacks "/" [] "1" (some "video") (some "/x")).2.2.1 (by decide),
    (handleMessage_diff_fallbacks "/undefined" [] "1" (some "video") (some "/x")).2.2.2
      (by decide)⟩

/-- C4: a live element whose id is in the preserved set
(`__web_dev_server_config`, `__web_dev_server_client`) is never removed,
replaced or re-created: after any head merge and any script reactivation it
is still the very same element at the same position. -/
theorem preservedIds_never_touched (imp fresh : Nat → Nat)
    (currentHead scripts : List Elem) (newHead : Option (List Elem))
    (i : Nat) (e : Elem) (hpres : e.id ∈ getPreservedIds) :
    (currentHead[i]? = some e → (mergeHead imp currentHead newHead)[i]? = some e) ∧
      (scripts[i]? = some e → (reactivateScripts fresh scripts)[i]? = some e) := by
  constructor
  · intro hi
    cases newHead with
    | none => exact hi
    | some nh =>
      refine mergeChildren_preserves imp nh 0 (currentHead, buildIndexFrom 0 currentHead)
        ?_ i e hi hpres
      intro pr hpr
      have h := buildIndexFrom_spec currentHead 0 pr hpr
      simpa using h.2
  · intro hi
    exact reactivateFrom_preserves fresh scripts 0 i e hi hpres

/-- C4, witness: the preservation theorem applied to a one-element head and
script list carrying the preserved config id. -/
theorem preservedIds_never_touched_witness :
    ((⟨"__web_dev_server_config", 0, 0⟩ : Elem).id ∈ getPreservedIds) ∧
      (mergeHead (fun j => 100 + j) [⟨"__web_dev_server_config", 0, 0⟩]
          (some [⟨"__web_dev_server_config", 5, 9⟩]))[0]?
        = some ⟨"__web_dev_server_config", 0, 0⟩ ∧
      (reactivateScripts (fun i => 50 + i) [⟨"__web_dev_server_config", 0, 0⟩])[0]?
        = some ⟨"__web_dev_server_config", 0, 0⟩ :=
  ⟨by decide,
    (preservedIds_never_touched (fun j => 100 + j) (fun i => 50 + i)
        [⟨"__web_dev_server_config", 0, 0⟩] [⟨"__web_dev_server_config", 0, 0⟩]
        (some [⟨"__web_dev_server_config", 5, 9⟩]) 0 ⟨"__web_dev_server_config", 0, 0⟩
        (by decide)).1 (by decide),
    (preservedIds_never_touched (fun j => 100 + j) (fun i => 50 + i)
        [⟨"__web_dev_server_config", 0, 0⟩] [⟨"__web_dev_server_config", 0, 0⟩]
        (some [⟨"__web_dev_server_config", 5, 9⟩]) 0 ⟨"__web_dev_server_config", 0, 0⟩
        (by decide)).2 (by decide)⟩

/-- C5: a `reload` message triggers a full reload regardless of patch mode,
resource or path; and a `diff` message with patch mode disabled triggers a
full reload regardless of its resource and path fields. -/
theorem handleMessage_reload_unconditional (diffMode : Bool) (currentPath : String)
    (links : List String) (now : String) (resource path : Option String) :
    handleMessage diffMode currentPath links now ⟨some "reload", resource, path⟩
        = Outcome.reload ∧
      handleMessage false currentPath links now ⟨some "diff", resource, path⟩
        = Outcome.reload := by
  constructor
  · simp [handleMessage]
  · simp [handleMessage]

/-- C6: for a CSS diff with a present (non-empty) path, every stylesheet link
resolving to the normalized target pathname is rewritten to its cache-busted
URL (whose `_v` parameter is the fresh timestamp) and the others are left
alone; a full reload is triggered exactly when no link matches. -/
theorem applyCssDiff_spec (links : List String) (p now : String) (hp : p ≠ "") :
    (applyCssDiff links now (some p)).1
        = links.map (fun href =>
            if urlPathname href = urlPathname p then cacheBustUrl now href else href) ∧
      ((applyCssDiff links now (some p)).2 = false ↔
        ∃ href ∈ links, urlPathname href = urlPathname p) ∧
      ∀ href, lookupParam (cacheBustUrlRec now href).params "_v" = some now := by
  refine ⟨?_, ?_, fun href => lookupParam_set _ _ _⟩
  · simp [applyCssDiff, jsFalsy, jsToString, hp]
  · simp [applyCssDiff, jsFalsy, jsToString, hp, List.any_eq_true]

/-- C6, witness: the CSS diff theorem applied to a single matching link. -/
theorem applyCssDiff_spec_witness :
    ("/styles/app.css" ≠ "") ∧
      ((applyCssDiff ["/styles/app.css"] "1" (some "/styles/app.css")).2 = false ↔
        ∃ href ∈ ["/styles/app.css"], urlPathname href = urlPathname "/styles/app.css") :=
  ⟨by decide, (applyCssDiff_spec ["/styles/app.css"] "/styles/app.css" "1" (by decide)).2.1⟩

/-- C7, counterexample: after a successful open, the delay used for the next
failure is not 500 ms: the close handler doubles first, so it is 1000 ms. -/
theorem retryDelay_after_open_close_not_500 :
    (runEvents 8000 [SocketEvent.opened, SocketEvent.closed]).2 ≠ [500] := by
  decide

/-- C7 (amended): after any successful open, `RetryDelay` is reset to 500 ms,
so the delay scheduled after the next failure is `min (500·2) 8000` = 1000 ms. -/
theorem retryDelay_reset_on_open (d : Nat) :
    (runEvents d [SocketEvent.opened]).1 = 500 ∧
      (runEvents d [SocketEvent.opened, SocketEvent.closed]).2 = [1000] :=
  ⟨rfl, rfl⟩

/-- C8: the normalizer maps `/foo/index.html`, `/foo/` and `/foo` to `/foo`
and `/` to `/`; moreover every output starts with a single leading slash and
has no trailing slash unless it is the root. -/
theorem normalizeHtmlPath_canonical :
    normalizeHtmlPath "/foo/index.html" = "/foo" ∧
      normalizeHtmlPath "/foo/" = "/foo" ∧
      normalizeHtmlPath "/foo" = "/foo" ∧
      normalizeHtmlPath "/" = "/" ∧
      ∀ q : String, (normalizeHtmlPath q).data.head? = some '/' ∧
        (normalizeHtmlPath q = "/" ∨ (normalizeHtmlPath q).data.getLast? ≠ some '/') := by
  refine ⟨by decide, by decide, by decide, by decide, fun q => ?_⟩
  have h := normalizeHtmlPathChars_shape q.data
  refine ⟨h.1, ?_⟩
  rcases h.2 with he | hl
  · left
    show String.mk (normalizeHtmlPathChars q.data) = "/"
    rw [he]
  · right
    exact hl

/-- C9: during an HTML diff, a missing fetched body triggers a full reload
and leaves the live body unchanged, while a missing fetched head makes the
head merge a silent no-op (no mutation, and `mergeHead` has no reload path). -/
theorem replaceBody_missing_reloads_mergeHead_missing_noop
    (imp : Nat → Nat) (liveBody currentHead : List Elem) :
    replaceBody imp liveBody none = (liveBody, true) ∧
      mergeHead imp currentHead none = currentHead :=
  ⟨rfl, rfl⟩

/-- C10: the cache-bust URL builder changes only the `_v` query parameter of
the path resolved against the origin: scheme, host, pathname and all other
query parameters (in order) are exactly those of the resolved input, and the
`_v` parameter of the result is the fresh timestamp. -/
theorem cacheBustUrl_changes_only_v (path now : String) :
    (cacheBustUrlRec now path).scheme = (resolveUrl path).scheme ∧
      (cacheBustUrlRec now path).host = (resolveUrl path).host ∧
      (cacheBustUrlRec now path).pathname = (resolveUrl path).pathname ∧
      (cacheBustUrlRec now path).params.filter (fun kv => kv.1 != "_v")
        = (resolveUrl path).params.filter (fun kv => kv.1 != "_v") ∧
      lookupParam (cacheBustUrlRec now path).params "_v" = some now :=
  ⟨rfl, rfl, rfl, setParamList_filter _ _ _, lookupParam_set _ _ _⟩

end WebDevServer
